import Mathlib

/-!
Shallow embedding of the lookahead iteration protocol implemented by
`src/pipe_cleaner/traversal.py` (class `LookaheadIterable`, function
`with_lookahead`), together with theorems settling the claims about it.

Modelling conventions:
* A Python iterator over a finite source is a `List α` of the values it has
  not yet produced; `next` on an empty list raises `StopIteration`, modelled
  as the `stop` result below.
* `stop_iteration_handler` silently absorbs `StopIteration`, so a pull that
  hits exhaustion yields the normal end-of-sequence signal (`stop`), never an
  error.
* A raised `LookaheadError` is the `error msg` result, carrying the exact
  message string of the source.
* Python mutation of `self` is explicit state passing: every operation
  returns the possibly-updated `LookaheadIterable` next to its result, and an
  operation that raises returns the state exactly as the source left it at
  the raise (the source raises before any mutation).
* A Python generator that returns, or lets an exception escape, is finished:
  every later `next` on it raises a bare `StopIteration`. Where this matters
  (pulls on the view returned by `_iterate`) the view carries an explicit
  `finished` flag, threaded through `genPull`.
-/

namespace PipeCleaner

/-- Outcome of one pull on a view: a value, silent end of sequence
(`StopIteration` seen by the consumer), or a raised `LookaheadError`
carrying its message. -/
inductive PullResult (α : Type) where
  | value (a : α)
  | stop
  | error (msg : String)
deriving DecidableEq

/-- True exactly on the `error` constructor. -/
def PullResult.isError {α : Type} : PullResult α → Bool
  | .error _ => true
  | _ => false

/-- State of a `LookaheadIterable`: `iterable` is the not-yet-pulled rest of
the underlying source iterator, `peeking` whether `_peeking` is not `None`,
`peeked` the values pulled during the current peek session, `unpeeked` the
buffer of values returned to the front by `rewind`. -/
structure LookaheadIterable (α : Type) where
  iterable : List α
  peeking : Bool
  peeked : List α
  unpeeked : List α
deriving DecidableEq

/-- `LookaheadIterable.__init__`: wrap a source; both buffers start empty and
no peek session is active. -/
def ofIterable {α : Type} (l : List α) : LookaheadIterable α :=
  { iterable := l, peeking := false, peeked := [], unpeeked := [] }

/-- Message of the `LookaheadError` raised by `_iterate`. -/
def iterateErrorMessage : String :=
  "Cannot iterate after a peek(). Call rewind() first"

/-- Message of the `LookaheadError` raised by `peek`. -/
def peekErrorMessage : String :=
  "peek() called multiple times without rewind()"

/-- Message of the `LookaheadError` raised by `rewind`. -/
def rewindErrorMessage : String :=
  "rewind() called without peek()"

/-- One pull on the generator built by `_iterate` (the body of its loop):
raise `LookaheadError` if a peek session is active, otherwise yield
`unpeeked.pop(0)` when `unpeeked` is non-empty, else `next(self.iterable)`;
exhaustion of the source is absorbed into `stop`. -/
def pullIter {α : Type} (s : LookaheadIterable α) :
    PullResult α × LookaheadIterable α :=
  if s.peeking then (.error iterateErrorMessage, s)
  else
    match s.unpeeked with
    | x :: rest => (.value x, { s with unpeeked := rest })
    | [] =>
      match s.iterable with
      | y :: ys => (.value y, { s with iterable := ys })
      | [] => (.stop, s)

/-- One pull on the generator built by `peek._peek` (the body of its loop):
take `unpeeked.pop(0)` when `unpeeked` is non-empty, else
`next(self.iterable)`, append the drawn item to `peeked`, and yield it;
exhaustion of the source is absorbed into `stop`. -/
def pullPeek {α : Type} (s : LookaheadIterable α) :
    PullResult α × LookaheadIterable α :=
  match s.unpeeked with
  | x :: rest =>
    (.value x, { s with unpeeked := rest, peeked := s.peeked ++ [x] })
  | [] =>
    match s.iterable with
    | y :: ys =>
      (.value y, { s with iterable := ys, peeked := s.peeked ++ [y] })
    | [] => (.stop, s)

/-- The method `peek()`: raise if a session is already active, otherwise
open a session (`self._peeking = _peek()`). The first component is the
raised message, if any. -/
def peek {α : Type} (s : LookaheadIterable α) :
    Option String × LookaheadIterable α :=
  if s.peeking then (some peekErrorMessage, s)
  else (none, { s with peeking := true })

/-- Python slice `l[-n:]` for `n > 0`: the last `n` elements, the whole list
when `n` exceeds its length. -/
def takeLast {α : Type} (n : Int) (l : List α) : List α :=
  l.drop (l.length - n.toNat)

/-- The method `rewind(n)`: raise if no session is active; otherwise set
`unpeeked` to `peeked[:]` when `n < 0`, to `peeked[-n:]` when `n > 0`, and
leave it untouched when `n == 0`; then clear `peeked`, close the peek
generator and set `_peeking = None`. -/
def rewind {α : Type} (n : Int) (s : LookaheadIterable α) :
    Option String × LookaheadIterable α :=
  if !s.peeking then (some rewindErrorMessage, s)
  else
    (none,
      { s with
        unpeeked :=
          if n < 0 then s.peeked
          else if n > 0 then takeLast n s.peeked
          else s.unpeeked,
        peeked := [],
        peeking := false })

/-- A pull on the view returned by `_iterate`, accounting for the finished
state of the Python generator: a finished generator answers every `next`
with a bare `StopIteration`, and the generator finishes as soon as it
returns (source exhausted) or lets an exception escape (`LookaheadError`).
Returns the result, the new finished flag and the new wrapper state. -/
def genPull {α : Type} (finished : Bool) (s : LookaheadIterable α) :
    PullResult α × Bool × LookaheadIterable α :=
  if finished then (.stop, true, s)
  else
    match pullIter s with
    | (.value a, s') => (.value a, false, s')
    | (.stop, s') => (.stop, true, s')
    | (.error m, s') => (.error m, true, s')

/-- A value present in the pipeline: either already a `LookaheadIterable` or
a plain iterable (its list of values). -/
inductive PipeValue (α : Type) where
  | la (s : LookaheadIterable α)
  | raw (l : List α)
deriving DecidableEq

/-- The function `with_lookahead`: return the argument itself when it is
already a `LookaheadIterable`, otherwise wrap it. -/
def with_lookahead {α : Type} : PipeValue α → LookaheadIterable α
  | .la s => s
  | .raw l => ofIterable l

/-- Iterate the wrapper to exhaustion through repeated pulls on a fresh
`_iterate` view, collecting the yielded values; stops at the end-of-sequence
signal, or at once if the first pull raises. -/
def iterateAll {α : Type} (s : LookaheadIterable α) : List α :=
  match h : pullIter s with
  | (.value a, s') => a :: iterateAll s'
  | (.stop, _) => []
  | (.error _, _) => []
termination_by s.unpeeked.length + s.iterable.length
decreasing_by
  unfold pullIter at h
  by_cases hp : s.peeking
  · simp [hp] at h
  · simp [hp] at h
    rcases hu : s.unpeeked with _ | ⟨x, rest⟩
    · rcases hi : s.iterable with _ | ⟨y, ys⟩
      · simp [hu, hi] at h
      · simp [hu, hi] at h
        simp [← h.2, hu, hi]
    · simp [hu] at h
      simp [← h.2, hu]

/-- Repeated pulls on the peek view: apply `pullPeek` the given number of
times, keeping only the state. -/
def pullPeekN {α : Type} : Nat → LookaheadIterable α → LookaheadIterable α
  | 0, s => s
  | j + 1, s => pullPeekN j (pullPeek s).2

/-- One operation a consumer can perform on the wrapper: a pull on the
normal iteration view, a pull on the view of the open peek session, a call
to `peek()`, or a call to `rewind(n)`. -/
inductive Op where
  | pullIter
  | pullPeek
  | peek
  | rewind (n : Int)
deriving DecidableEq

/-- One step of a consumer-driven run: `none` when the operation is not
legal there (it raises `LookaheadError`, or pulls a peek view with no open
session); otherwise the value delivered to the consumer, if any, and the new
state. -/
def stepOp {α : Type} (s : LookaheadIterable α) :
    Op → Option (Option α × LookaheadIterable α)
  | .pullIter =>
    match pullIter s with
    | (.value a, s') => some (some a, s')
    | (.stop, s') => some (none, s')
    | (.error _, _) => none
  | .pullPeek =>
    if s.peeking then
      match pullPeek s with
      | (.value a, s') => some (some a, s')
      | (.stop, s') => some (none, s')
      | (.error _, _) => none
    else none
  | .peek =>
    match peek s with
    | (none, s') => some (none, s')
    | (some _, _) => none
  | .rewind n =>
    match rewind n s with
    | (none, s') => some (none, s')
    | (some _, _) => none

/-- Run a whole list of operations, collecting every value delivered to any
consumer, in delivery order; `none` when some step is illegal. -/
def execTrace {α : Type} :
    LookaheadIterable α → List Op → Option (List α × LookaheadIterable α)
  | s, [] => some ([], s)
  | s, op :: ops =>
    match stepOp s op with
    | none => none
    | some (v, s') =>
      match execTrace s' ops with
      | none => none
      | some (vs, sf) => some (v.toList ++ vs, sf)

/-- Modelled from the spec: `rewind` "returns some or all peeked elements to
the front of the sequence so that normal iteration (or a subsequent peek)
will see them again" — the chosen peeked values are restored to the front of
the `returned` buffer, in front of whatever that buffer still holds, so no
buffered value is ever discarded. Guard and choice of values mirror the
spec's cases for `n`. -/
def specRewind {α : Type} (n : Int) (s : LookaheadIterable α) :
    Option String × LookaheadIterable α :=
  if !s.peeking then (some rewindErrorMessage, s)
  else
    (none,
      { s with
        unpeeked :=
          (if n < 0 then s.peeked
           else if n > 0 then takeLast n s.peeked
           else []) ++ s.unpeeked,
        peeked := [],
        peeking := false })

/-- One step of the spec-level machine: identical to `stepOp` except that
`rewind` follows the spec's restore-to-the-front semantics. -/
def specStepOp {α : Type} (s : LookaheadIterable α) :
    Op → Option (Option α × LookaheadIterable α)
  | .rewind n =>
    match specRewind n s with
    | (none, s') => some (none, s')
    | (some _, _) => none
  | .pullIter => stepOp s .pullIter
  | .pullPeek => stepOp s .pullPeek
  | .peek => stepOp s .peek

/-- Run of the spec-level machine, collecting delivered values. -/
def specExecTrace {α : Type} :
    LookaheadIterable α → List Op → Option (List α × LookaheadIterable α)
  | s, [] => some ([], s)
  | s, op :: ops =>
    match specStepOp s op with
    | none => none
    | some (v, s') =>
      match specExecTrace s' ops with
      | none => none
      | some (vs, sf) => some (v.toList ++ vs, sf)

/-- A trace is safe when, along the run of the code machine, every `rewind`
is invoked with an empty `unpeeked` buffer (the situation the spec asserts
is the only reachable one). -/
def safeTrace {α : Type} : LookaheadIterable α → List Op → Bool
  | _, [] => true
  | s, op :: ops =>
    (match op with
     | Op.rewind _ => s.unpeeked.isEmpty
     | _ => true)
      && (match stepOp s op with
          | some (_, s') => safeTrace s' ops
          | none => true)

/-- State reached from a fresh wrap of `[1, 2, 3]` by: peek, two pulls on
the peek view, `rewind(-1)`, peek again, one pull on the new peek view. The
second session pulled once while two values were buffered, so one value is
still buffered when `rewind` would run. -/
def shortSessionState : LookaheadIterable Nat :=
  pullPeekN 1 (peek (rewind (-1) (pullPeekN 2 (peek (ofIterable [1, 2, 3])).2)).2).2

/-- Consumer run distinguishing the code machine from the spec machine: two
full peek sessions with `rewind(-1)`, the second session pulling only once,
then normal iteration to exhaustion. -/
def distinguishingTrace : List Op :=
  [Op.peek, Op.pullPeek, Op.pullPeek, Op.rewind (-1), Op.peek, Op.pullPeek,
   Op.rewind (-1), Op.pullIter, Op.pullIter, Op.pullIter]

/-!  Theorems. Helper lemmas come first, then one theorem per claim, each
preceded by a doc comment naming the claim. -/

/-- Full iteration of a non-peeking wrapper delivers the `unpeeked` buffer
followed by the rest of the source. -/
theorem iterateAll_eq {α : Type} (u l pk : List α) :
    iterateAll ⟨l, false, pk, u⟩ = u ++ l := by
  induction u with
  | nil =>
    induction l with
    | nil => rw [iterateAll]; simp [pullIter]
    | cons y ys ih =>
      rw [iterateAll]
      simp only [pullIter]
      simpa using ih
  | cons x rest ih =>
    rw [iterateAll]
    simp only [pullIter]
    simpa using ih

/-- A peek session over a state with an empty buffer moves a prefix of the
source into `peeked`, one value per pull. -/
theorem pullPeekN_source {α : Type} (k : Nat) (S pk : List α) (b : Bool)
    (hk : k ≤ S.length) :
    pullPeekN k ⟨S, b, pk, []⟩ = ⟨S.drop k, b, pk ++ S.take k, []⟩ := by
  induction k generalizing S pk with
  | zero => simp [pullPeekN]
  | succ j ih =>
    rcases S with _ | ⟨y, ys⟩
    · simp at hk
    · have hj : j ≤ ys.length := by simpa using hk
      simp only [pullPeekN, pullPeek]
      rw [ih ys (pk ++ [y]) hj]
      simp

/-- Each pull on the peek view pops the front of `unpeeked` when the buffer
is non-empty and leaves it empty otherwise. -/
theorem pullPeek_unpeeked {α : Type} (s : LookaheadIterable α) :
    (pullPeek s).2.unpeeked = s.unpeeked.tail := by
  rcases hu : s.unpeeked with _ | ⟨x, rest⟩
  · rcases hi : s.iterable with _ | ⟨y, ys⟩ <;> simp [pullPeek, hu, hi]
  · simp [pullPeek, hu]

/-- After `j` pulls on the peek view, exactly the first `j` buffered values
are gone from `unpeeked`, whatever the rest of the state. -/
theorem pullPeekN_unpeeked {α : Type} (j : Nat) (s : LookaheadIterable α) :
    (pullPeekN j s).unpeeked = s.unpeeked.drop j := by
  induction j generalizing s with
  | zero => simp [pullPeekN]
  | succ i ih =>
    simp only [pullPeekN]
    rw [ih, pullPeek_unpeeked, ← List.drop_one, List.drop_drop,
      Nat.add_comm 1 i]

/-- When `unpeeked` is empty, replacing it (code) and prepending to it
(spec) coincide, so the two rewind semantics agree. -/
theorem specRewind_eq_rewind {α : Type} (n : Int) (s : LookaheadIterable α)
    (hu : s.unpeeked = []) : specRewind n s = rewind n s := by
  unfold specRewind rewind
  by_cases hp : s.peeking
  · by_cases hn : n < 0
    · simp [hp, hn, hu]
    · by_cases hn2 : n > 0 <;> simp [hp, hn, hn2, hu]
  · simp [hp]

/-- The spec machine and the code machine take identical steps on every
operation other than `rewind`, and on `rewind` as well whenever the buffer
is empty at that moment. -/
theorem specStepOp_eq_stepOp {α : Type} (s : LookaheadIterable α) (op : Op)
    (h : ∀ n : Int, op = Op.rewind n → s.unpeeked = []) :
    specStepOp s op = stepOp s op := by
  cases op with
  | rewind n =>
    simp only [specStepOp, specRewind_eq_rewind n s (h n rfl), stepOp]
  | pullIter => rfl
  | pullPeek => rfl
  | peek => rfl

/-- One-step unfolding of the two runs: when the machines take the same
step here and agree on every continuation, they agree on the whole run. -/
theorem execTrace_cons_eq {α : Type} (s : LookaheadIterable α) (op : Op)
    (ops : List Op) (hstep : specStepOp s op = stepOp s op)
    (hcont : ∀ v s', stepOp s op = some (v, s') →
      execTrace s' ops = specExecTrace s' ops) :
    execTrace s (op :: ops) = specExecTrace s (op :: ops) := by
  rcases hs : stepOp s op with _ | ⟨v, s'⟩
  · simp only [execTrace, specExecTrace, hstep, hs]
  · simp only [execTrace, specExecTrace, hstep, hs]
    rw [hcont v s' hs]

/-- C5: plain iteration over a freshly wrapped finite sequence S yields
exactly the elements of S, in order, with no duplication and no loss, and
then stops. -/
theorem iterate_fresh_yields_source {α : Type} (S : List α) :
    iterateAll (ofIterable S) = S := by
  simpa [ofIterable] using iterateAll_eq ([] : List α) S []

/-- C9: `with_lookahead` returns an already-wrapped value itself, state and
all, wraps any other iterable fresh, and is therefore idempotent. -/
theorem with_lookahead_idempotent {α : Type} (x : PipeValue α) :
    with_lookahead (.la (with_lookahead x)) = with_lookahead x
      ∧ (∀ s : LookaheadIterable α, with_lookahead (.la s) = s)
      ∧ (∀ l : List α, with_lookahead (.raw l) = ofIterable l) :=
  ⟨rfl, fun _ => rfl, fun _ => rfl⟩

/-- C10: calling `rewind(n)` with `n` greater than the number of values
pulled in the current peek session behaves exactly like `rewind` with a
negative argument: all peeked values are restored, the overshoot is silently
clamped. -/
theorem rewind_overshoot_clamps {α : Type} (s : LookaheadIterable α)
    (n : Int) (hn : (s.peeked.length : Int) < n) :
    rewind n s = rewind (-1) s := by
  unfold rewind
  by_cases hp : s.peeking
  · have h0 : (0 : Int) < n := lt_of_le_of_lt (by positivity) hn
    have hlen : s.peeked.length ≤ n.toNat := by omega
    simp [hp, takeLast, not_lt.mpr (le_of_lt h0), h0,
      Nat.sub_eq_zero_of_le hlen]
  · simp [hp]

/-- Witness for C10 at a concrete session state. -/
theorem rewind_overshoot_clamps_witness :
    rewind 5 (⟨[9], true, [1, 2], []⟩ : LookaheadIterable Nat)
      = rewind (-1) ⟨[9], true, [1, 2], []⟩ :=
  rewind_overshoot_clamps ⟨[9], true, [1, 2], []⟩ 5 (by decide)

/-- C3: on a freshly wrapped S, pulling k values through a `peek()` view and
then calling `rewind()` with its default argument, then iterating to
exhaustion, yields exactly S, unchanged. -/
theorem peek_rewind_all_roundtrip {α : Type} (S : List α) (k : Nat)
    (hk : k ≤ S.length) :
    iterateAll (rewind (-1) (pullPeekN k (peek (ofIterable S)).2)).2 = S := by
  have hpeek : (peek (ofIterable S)).2
      = (⟨S, true, [], []⟩ : LookaheadIterable α) := by
    simp [peek, ofIterable]
  rw [hpeek, pullPeekN_source k S [] true hk]
  simp only [rewind]
  norm_num
  rw [iterateAll_eq]
  exact List.take_append_drop k S

/-- Witness for C3 on a concrete sequence and prefix length. -/
theorem peek_rewind_all_roundtrip_witness :
    iterateAll (rewind (-1) (pullPeekN 2 (peek (ofIterable [4, 5, 6])).2)).2
      = [4, 5, 6] :=
  peek_rewind_all_roundtrip [4, 5, 6] 2 (by decide)

/-- C4: on a freshly wrapped S, pulling k values through a `peek()` view and
then calling `rewind(n)` with `0 ≤ n ≤ k`, then iterating to exhaustion,
yields the last n of the k peeked values followed by the untouched remainder
of S; the first k - n peeked values are dropped (all of them when n = 0). -/
theorem peek_rewind_partial {α : Type} (S : List α) (k n : Nat)
    (hn : n ≤ k) (hk : k ≤ S.length) :
    iterateAll (rewind (n : Int) (pullPeekN k (peek (ofIterable S)).2)).2
      = (S.take k).drop (k - n) ++ S.drop k := by
  have hpeek : (peek (ofIterable S)).2
      = (⟨S, true, [], []⟩ : LookaheadIterable α) := by
    simp [peek, ofIterable]
  have hlen : (S.take k).length = k := by
    simp [List.length_take, Nat.min_eq_left hk]
  rw [hpeek, pullPeekN_source k S [] true hk]
  simp only [rewind]
  norm_num
  rcases Nat.eq_zero_or_pos n with h0 | hpos
  · subst h0
    norm_num
    rw [iterateAll_eq]
    simp [List.drop_eq_nil_of_le (le_of_eq hlen)]
  · rw [if_pos hpos, iterateAll_eq]
    simp [takeLast, hlen]

/-- Witness for C4 on a concrete sequence, prefix length and rewind count. -/
theorem peek_rewind_partial_witness :
    iterateAll (rewind (1 : Int) (pullPeekN 2 (peek (ofIterable [4, 5, 6])).2)).2
      = [5, 6] :=
  peek_rewind_partial [4, 5, 6] 2 1 (by decide) (by decide)

/-- C2, counterexample: a reachable state (wrap `[1, 2, 3]`; peek; pull
twice; `rewind(-1)`; peek; pull once) in which the peek session is active
yet `unpeeked = [2]` is not empty, so the claimed invariant fails; calling
`rewind(-1)` there replaces the buffer and the value `2` is gone: full
iteration afterwards yields `[1, 3]`. -/
theorem rewind_discards_buffered :
    shortSessionState.peeking = true
      ∧ shortSessionState.unpeeked = [2]
      ∧ (rewind (-1) shortSessionState).2
          = (⟨[3], false, [], [1]⟩ : LookaheadIterable Nat)
      ∧ iterateAll (rewind (-1) shortSessionState).2 = [1, 3] := by
  refine ⟨by decide, by decide, by decide, ?_⟩
  have h : (rewind (-1) shortSessionState).2
      = (⟨[3], false, [], [1]⟩ : LookaheadIterable Nat) := by decide
  rw [h]
  simpa using iterateAll_eq [1] [3] ([] : List Nat)

/-- C2, amended: the `returned` buffer is empty when `rewind` runs provided
the peek session pulled its view at least as many times as there were
buffered values — each pull drains the front of `unpeeked` first — so in
that case (and only then is it guaranteed) the wholesale replacement of
`unpeeked` discards no buffered data; a session whose view is pulled fewer
times can leave the buffer non-empty and `rewind` then discards it. -/
theorem peek_drains_returned {α : Type} (s : LookaheadIterable α) (j : Nat)
    (hj : s.unpeeked.length ≤ j) : (pullPeekN j s).unpeeked = [] := by
  rw [pullPeekN_unpeeked]
  exact List.drop_eq_nil_of_le hj

/-- Witness for the amended C2 at a concrete state with two buffered
values and two pulls. -/
theorem peek_drains_returned_witness :
    (pullPeekN 2 (⟨[], true, [], [1, 2]⟩ : LookaheadIterable Nat)).unpeeked
      = [] :=
  peek_drains_returned ⟨[], true, [], [1, 2]⟩ 2 (by decide)

/-- C1, counterexample: a legal consumer run (two peek sessions, both
closed by `rewind(-1)`, the second pulling only once, then iteration to
exhaustion) on the source `[1, 2, 3]` under which the code delivers
`[1, 2, 1, 1, 3]` while the restore-to-the-front semantics the spec
describes delivers `[1, 2, 1, 1, 2, 3]`: the value `2`, restored by the
first `rewind(-1)` and dropped by no rewind decision, is silently lost and
never reaches its original relative position. -/
theorem trace_delivery_differs_from_spec :
    (execTrace (ofIterable [1, 2, 3]) distinguishingTrace).map Prod.fst
        = some [1, 2, 1, 1, 3]
      ∧ (specExecTrace (ofIterable [1, 2, 3]) distinguishingTrace).map Prod.fst
          = some [1, 2, 1, 1, 2, 3] := by
  decide

/-- C1, amended: for every finite source and every legal interleaving of
iterate-pulls, peek sessions and `rewind(n)` calls in which each `rewind`
runs with the `returned` buffer already drained, the deliveries of the code
coincide step for step with the spec-level restore-to-the-front semantics:
order and multiplicity are exactly as the rewind decisions imply and no
value is duplicated or lost. Without the drained-buffer condition a still
buffered value can be silently lost, as the counterexample shows. -/
theorem delivery_matches_spec_on_safe_traces {α : Type}
    (s : LookaheadIterable α) (T : List Op) (h : safeTrace s T = true) :
    execTrace s T = specExecTrace s T := by
  induction T generalizing s with
  | nil => rfl
  | cons op ops ih =>
    cases op with
    | rewind n =>
      simp only [safeTrace, Bool.and_eq_true] at h
      have hu : s.unpeeked = [] := by
        simpa [List.isEmpty_iff] using h.1
      refine execTrace_cons_eq s (Op.rewind n) ops ?_ ?_
      · simp only [specStepOp, specRewind_eq_rewind n s hu, stepOp]
      · intro v s' hs
        apply ih
        have h2 := h.2
        rw [hs] at h2
        exact h2
    | pullIter =>
      simp only [safeTrace, Bool.true_and] at h
      refine execTrace_cons_eq s Op.pullIter ops rfl ?_
      intro v s' hs
      apply ih
      rw [hs] at h
      exact h
    | pullPeek =>
      simp only [safeTrace, Bool.true_and] at h
      refine execTrace_cons_eq s Op.pullPeek ops rfl ?_
      intro v s' hs
      apply ih
      rw [hs] at h
      exact h
    | peek =>
      simp only [safeTrace, Bool.true_and] at h
      refine execTrace_cons_eq s Op.peek ops rfl ?_
      intro v s' hs
      apply ih
      rw [hs] at h
      exact h

/-- Witness for the amended C1 on a concrete safe run. -/
theorem delivery_matches_spec_witness :
    safeTrace (ofIterable [1, 2])
        [Op.peek, Op.pullPeek, Op.rewind (-1), Op.pullIter] = true
      ∧ execTrace (ofIterable [1, 2])
            [Op.peek, Op.pullPeek, Op.rewind (-1), Op.pullIter]
          = specExecTrace (ofIterable [1, 2])
              [Op.peek, Op.pullPeek, Op.rewind (-1), Op.pullIter] :=
  ⟨by decide,
   delivery_matches_spec_on_safe_traces (ofIterable [1, 2])
     [Op.peek, Op.pullPeek, Op.rewind (-1), Op.pullIter] (by decide)⟩

/-- C6, counterexample: a pull on a finished normal iteration view does not
raise even while a peek session is active. On the empty source the first
pull ends the view (the Python generator returns and is finished); after
`peek()` opens a session, a pull on that same view yields the silent
end-of-sequence signal, not a `LookaheadError`, refuting the only-if
direction of the claimed raises-iff. -/
theorem finished_view_pull_no_error :
    (peek (ofIterable ([] : List Nat))).2.peeking = true
      ∧ genPull false (ofIterable ([] : List Nat))
          = (PullResult.stop, true, ofIterable ([] : List Nat))
      ∧ genPull true (peek (ofIterable ([] : List Nat))).2
          = (PullResult.stop, true, (peek (ofIterable ([] : List Nat))).2) := by
  decide

/-- C6, amended: on a live (not yet finished) normal iteration view a pull
raises `LookaheadError` exactly when a peek session is active; a pull on a
finished view signals end of sequence instead, even while peeking. `peek()`
raises exactly when a session is already active, and `rewind(n)` exactly
when none is; each error is raised synchronously at the offending call. -/
theorem live_view_protocol_errors_iff {α : Type} (s : LookaheadIterable α)
    (n : Int) :
    ((genPull false s).1.isError = s.peeking)
      ∧ ((peek s).1.isSome = s.peeking)
      ∧ ((rewind n s).1.isSome = !s.peeking) := by
  refine ⟨?_, ?_, ?_⟩
  · by_cases hp : s.peeking
    · simp [genPull, pullIter, hp, PullResult.isError]
    · rcases hu : s.unpeeked with _ | ⟨x, r⟩
      · rcases hi : s.iterable with _ | ⟨y, ys⟩ <;>
          simp [genPull, pullIter, hp, hu, hi, PullResult.isError]
      · simp [genPull, pullIter, hp, hu, PullResult.isError]
  · by_cases hp : s.peeking <;> simp [peek, hp]
  · by_cases hp : s.peeking <;> simp [rewind, hp]

/-- C7: whenever `peek()` or `rewind(n)` raises `LookaheadError`, the
wrapper state — `_peeking`, `unpeeked` and `peeked` — is exactly as it was
before the failing call; in particular a failed second `peek()` leaves the
first session untouched. -/
theorem failed_calls_leave_state {α : Type} (s : LookaheadIterable α)
    (n : Int) (m m2 : String) :
    ((peek s).1 = some m → (peek s).2 = s)
      ∧ ((rewind n s).1 = some m2 → (rewind n s).2 = s) := by
  constructor
  · intro h
    by_cases hp : s.peeking
    · simp [peek, hp]
    · simp [peek, hp] at h
  · intro h
    by_cases hp : s.peeking
    · simp [rewind, hp] at h
    · simp [rewind, hp]

/-- Witness for C7: a failing second `peek()` and a failing bare `rewind()`
both leave their concrete states untouched. -/
theorem failed_calls_leave_state_witness :
    (peek (⟨[1], true, [], []⟩ : LookaheadIterable Nat)).2
        = ⟨[1], true, [], []⟩
      ∧ (rewind 0 (⟨[1], false, [], []⟩ : LookaheadIterable Nat)).2
          = ⟨[1], false, [], []⟩ :=
  ⟨(failed_calls_leave_state ⟨[1], true, [], []⟩ 0 peekErrorMessage
      rewindErrorMessage).1 rfl,
   (failed_calls_leave_state ⟨[1], false, [], []⟩ 0 peekErrorMessage
      rewindErrorMessage).2 rfl⟩

/-- C8: once the source is exhausted, a pull from the normal view or from a
peek view with nothing buffered yields the silent end-of-sequence signal
with the state unchanged — so every later pull does the same, indefinitely,
and the exhaustion exception of the source is never propagated — yet values
still sitting in `unpeeked` (restored by a rewind) are delivered in full by
subsequent iteration even though the source itself is exhausted. -/
theorem exhaustion_silent_sticky {α : Type} (s : LookaheadIterable α)
    (h : s.iterable = []) :
    (s.peeking = false → s.unpeeked = [] → pullIter s = (PullResult.stop, s))
      ∧ (s.unpeeked = [] → pullPeek s = (PullResult.stop, s))
      ∧ (s.peeking = false → iterateAll s = s.unpeeked) := by
  obtain ⟨l, p, pk, u⟩ := s
  simp only at h
  subst h
  refine ⟨?_, ?_, ?_⟩
  · intro hp hu
    simp only at hp hu
    subst hp; subst hu
    simp [pullIter]
  · intro hu
    simp only at hu
    subst hu
    simp [pullPeek]
  · intro hp
    simp only at hp
    subst hp
    simpa using iterateAll_eq u [] pk

/-- Witness for C8: pulls on the exhausted empty wrapper stop silently, and
a buffered value is still delivered after exhaustion. -/
theorem exhaustion_silent_sticky_witness :
    pullIter (⟨[], false, [], []⟩ : LookaheadIterable Nat)
        = (PullResult.stop, ⟨[], false, [], []⟩)
      ∧ iterateAll (⟨[], false, [], [5]⟩ : LookaheadIterable Nat) = [5] :=
  ⟨(exhaustion_silent_sticky ⟨[], false, [], []⟩ rfl).1 rfl rfl,
   (exhaustion_silent_sticky ⟨[], false, [], [5]⟩ rfl).2.2 rfl⟩

end PipeCleaner
